import Mathlib

/-!
Shallow embedding of the miniscript-psbt spending pipeline (src/src/main.rs).

The program builds an unsigned transaction spending the output of a funding
transaction whose script matches a descriptor's script, signs its single
input with two keys, and finalizes the PSBT.  Byte strings are lists of
naturals (each meant to be < 256); machine integers are naturals with the
widths noted at each field.  Rust panics (failed `unwrap`, `assert!`,
arithmetic underflow of `u64` in a debug build, and the explicit `panic!`
in `get_vout`) are modelled as `none`: every one of them is a fatal,
terminal abort of the run.
-/

namespace MiniPsbt

/-- Byte strings: lists of naturals, each intended to be < 256. -/
abbrev Bytes := List Nat

/-- An outpoint: (transaction id, output index).  `bitcoin::OutPoint`. -/
structure OutPoint where
  txid : Bytes
  vout : Nat
deriving DecidableEq, Repr

/-- A transaction output: value in sats (u64) and locking script. -/
structure TxOut where
  value : Nat
  script_pubkey : Bytes
deriving DecidableEq, Repr

/-- A transaction input: previous outpoint, script sig bytes, sequence (u32). -/
structure TxIn where
  previous_output : OutPoint
  script_sig : Bytes
  sequence : Nat
deriving DecidableEq, Repr

/-- A transaction: version, lock time, input list, output list
(`bitcoin::Transaction`; the witness stack lives in the PSBT model below
until extraction). -/
structure Transaction where
  version : Nat
  lock_time : Nat
  input : List TxIn
  output : List TxOut
deriving DecidableEq, Repr

/-- Little-endian serialization of a u32. -/
def ser32 (n : Nat) : Bytes :=
  [n % 256, n / 256 % 256, n / 65536 % 256, n / 16777216 % 256]

/-- Little-endian serialization of a u64. -/
def ser64 (n : Nat) : Bytes :=
  ser32 (n % 4294967296) ++ ser32 (n / 4294967296)

/-- Length-prefixed serialization of a byte string. -/
def serBytes (b : Bytes) : Bytes := ser32 b.length ++ b

/-- Serialization of an outpoint. -/
def serOutPoint (p : OutPoint) : Bytes := serBytes p.txid ++ ser32 p.vout

/-- Serialization of an output. -/
def serTxOut (o : TxOut) : Bytes := ser64 o.value ++ serBytes o.script_pubkey

/-- Serialization of an input. -/
def serTxIn (i : TxIn) : Bytes :=
  serOutPoint i.previous_output ++ serBytes i.script_sig ++ ser32 i.sequence

/-- Length-prefixed serialization of a list. -/
def serList {α : Type} (f : α → Bytes) (l : List α) : Bytes :=
  ser32 l.length ++ (l.map f).flatten

/-- Consensus-style serialization of a transaction (structure as in the
library's `consensus::serialize`: version, inputs, outputs, lock time). -/
def serTx (t : Transaction) : Bytes :=
  ser32 t.version ++ serList serTxIn t.input ++ serList serTxOut t.output
    ++ ser32 t.lock_time

/-- Modelled from the spec: the 32-byte digest primitive (double SHA-256 in
the bitcoin library, not part of this repository's sources); the program
reaches it through `Transaction::txid` and the sighash computation.  Only
determinism and the fixed 32-byte length are relied on, so it is modelled
as a concrete deterministic byte-mixing fold. -/
def hash32 (bs : Bytes) : Bytes :=
  (List.range 32).map fun i => bs.foldl (fun a b => (a * 131 + b + 1) % 256) (i * 37 % 256)

/-- The transaction id, `tx.txid()`: digest of the serialized transaction. -/
def txid (t : Transaction) : Bytes := hash32 (serTx t)

/-- The scan loop of `get_vout` (src/src/main.rs lines 165-172), generalized
over the running index: first output whose script equals `spk`, in index
order.  The `panic!` at the end of the loop is the fatal not-found case,
modelled as `none`. -/
def get_vout_from (id : Bytes) (spk : Bytes) : List TxOut → Nat → Option (OutPoint × TxOut)
  | [], _ => none
  | o :: rest, i =>
      if spk = o.script_pubkey then some (OutPoint.mk id i, o)
      else get_vout_from id spk rest (i + 1)

/-- `get_vout` (src/src/main.rs lines 165-172): find the outpoint and output
of `tx` whose script pubkey equals `spk`, scanning outputs in index order. -/
def get_vout (tx : Transaction) (spk : Bytes) : Option (OutPoint × TxOut) :=
  get_vout_from (txid tx) spk tx.output 0

/-- The fixed fee subtracted by the program (src/src/main.rs line 103). -/
def fee : Nat := 500

/-- `Sequence::MAX`, the default/maximal sequence number (2^32 - 1). -/
def seqMax : Nat := 4294967295

/-- Assembly of the unsigned spend (src/src/main.rs lines 73-104): locate the
funding output matching `desc_spk` via `get_vout`, then build a transaction
with exactly one input (the located outpoint, sequence `Sequence::MAX`) and
one output paying `receiver_spk` the amount minus the fixed fee of 500.
The subtraction `args.amount - 500` is an unchecked `u64` subtraction: for
`amount < 500` it underflows (a fatal panic in a debug build), modelled as
`none`; for `amount = 500` it produces a zero-value output with no error. -/
def assembleSpend (depo : Transaction) (receiver_spk : Bytes) (amount : Nat)
    (desc_spk : Bytes) : Option (Transaction × TxOut) :=
  match get_vout depo desc_spk with
  | none => none
  | some (op, utxo) =>
      if amount < fee then none
      else some (Transaction.mk 2 0 [TxIn.mk op [] seqMax]
        [TxOut.mk (amount - fee) receiver_spk], utxo)

/-- A signature digest (the secp message), a 32-byte string in the library. -/
abbrev Digest := Bytes

/-- A public key, abstracted to its identifier. -/
abbrev PubKey := Nat

/-- A signature: the model pairs the digest that was signed with the public
key of the signing secret, which is exactly what an ECDSA signature binds. -/
abbrev Sig := Bytes × Nat

/-- Modelled from the spec: secp256k1 public-key derivation (library code,
not part of this repository's sources).  An injective map from the secret
scalar, as the spec's `public(k)`. -/
def publicKey (sk : Nat) : PubKey := 2 * sk + 1

/-- Modelled from the spec: `secp256k1.sign_ecdsa` (library code).  The
signature binds the digest and the signer's public key, so that
`verify(public(k), sign(d, k), d)` succeeds and verification against a
different digest or a different public key fails. -/
def sign_ecdsa (msg : Digest) (sk : Nat) : Sig := (msg, publicKey sk)

/-- Modelled from the spec: `secp256k1.verify_ecdsa` (library code): the
signature is valid for exactly the digest and public key it binds. -/
def verify_ecdsa (msg : Digest) (s : Sig) (pk : PubKey) : Bool :=
  decide (s = (msg, pk))

/-- An ECDSA signature entry as stored in the PSBT: signature plus sighash
type flag (`bitcoin::EcdsaSig`). -/
structure EcdsaSig where
  sig : Sig
  hash_ty : Nat
deriving DecidableEq, Repr

/-- `EcdsaSighashType::All` (src/src/main.rs line 124). -/
def hashTyAll : Nat := 1

/-- The partial-signature map: `BTreeMap<PublicKey, EcdsaSig>`, modelled as
an assoc list ordered by key. -/
abbrev SigMap := List (PubKey × EcdsaSig)

/-- `BTreeMap::insert` semantics: order-preserving insertion that overwrites
an existing entry with the same key (standard library code; its documented
semantics is that keys are unique and a second insert replaces the value). -/
def btInsert (k : PubKey) (v : EcdsaSig) : SigMap → SigMap
  | [] => [(k, v)]
  | (k2, v2) :: rest =>
      if k = k2 then (k, v) :: rest
      else if k < k2 then (k, v) :: (k2, v2) :: rest
      else (k2, v2) :: btInsert k v rest

/-- `BTreeMap::get` semantics on the assoc-list model. -/
def btLookup (k : PubKey) : SigMap → Option EcdsaSig
  | [] => none
  | (k2, v) :: rest => if k = k2 then some v else btLookup k rest

/-- The signature-collection flow of src/src/main.rs lines 126-152,
parameterized by the library signer `sgn` (the program uses the secp
library's): sign the digest with the first key, self-verify against the
first public key (the `assert!` at line 132, a fatal abort when it fails,
modelled as `none`), sign with the second key, self-verify (line 136), and
only then insert both signatures into the partial-signature map, keyed by
public key, with sighash type `All`. -/
def collectWith (sgn : Digest → Nat → Sig) (msg : Digest) (sk1 sk2 : Nat)
    (m0 : SigMap) : Option SigMap :=
  let sig1 := sgn msg sk1
  let pk1 := publicKey sk1
  if verify_ecdsa msg sig1 pk1 then
    let sig2 := sgn msg sk2
    let pk2 := publicKey sk2
    if verify_ecdsa msg sig2 pk2 then
      some (btInsert pk2 (EcdsaSig.mk sig2 hashTyAll)
        (btInsert pk1 (EcdsaSig.mk sig1 hashTyAll) m0))
    else none
  else none

/-- The program's signature collection: `collectWith` instantiated with the
library signer, starting from the empty partial-signature map of the fresh
PSBT input. -/
def collectSignatures (msg : Digest) (sk1 sk2 : Nat) : Option SigMap :=
  collectWith sign_ecdsa msg sk1 sk2 []

/-- Modelled from the spec: the sighash computation reached through
`psbt.sighash_msg` (src/src/main.rs lines 116-121; the implementation is
library code).  For the witness-based (BIP143-style) variant selected by
the wsh descriptor, the digest is a pure function of the transaction, the
input index, the spent script, the spent value and the sighash-type flag:
version, digest of all prevouts, digest of all sequences, the spent
outpoint, the script code, the spent value, the input's sequence, digest of
all outputs, lock time and the sighash flag are folded into one digest.
An out-of-range input index is the library's error case, `none`. -/
def sighash_msg (tx : Transaction) (idx : Nat) (script_code : Bytes)
    (value : Nat) (hash_ty : Nat) : Option Digest :=
  match tx.input.get? idx with
  | none => none
  | some txin =>
      some (hash32 (ser32 tx.version
        ++ hash32 ((tx.input.map fun i => serOutPoint i.previous_output).flatten)
        ++ hash32 ((tx.input.map fun i => ser32 i.sequence).flatten)
        ++ serOutPoint txin.previous_output
        ++ serBytes script_code
        ++ ser64 value
        ++ ser32 txin.sequence
        ++ hash32 ((tx.output.map serTxOut).flatten)
        ++ ser32 tx.lock_time
        ++ ser32 hash_ty))

/-- Modelled from the spec: the policy tree over which the finalizer's
satisfaction algorithm works (the miniscript library's tree; the repository
only holds the descriptor text).  Node kinds as in the spec's data model:
`Key(identifier)`, `And(children)`, `Or(children)`,
`Threshold(k, children)` (the time-lock and hash-lock leaves play no role
in any claim and are omitted: the program's descriptor is a 2-of-2 key
policy). -/
inductive Policy where
  | key : PubKey → Policy
  | and : Policy → Policy → Policy
  | or : Policy → Policy → Policy
  | thresh : Nat → List Policy → Policy
deriving Repr

/-- A witness fragment produced by satisfaction: a signature for a key
leaf, a pair for an `and`, a branch marker for an `or`, a per-child list
for a threshold with `empty` marking a dissatisfied (unselected) child. -/
inductive Wit where
  | empty : Wit
  | sig : PubKey → Sig → Wit
  | both : Wit → Wit → Wit
  | left : Wit → Wit
  | right : Wit → Wit
  | among : List Wit → Wit
deriving Repr

mutual

/-- Size cost of a witness fragment, used by the satisfier's
minimal-witness selection rule. -/
def witSize : Wit → Nat
  | .empty => 1
  | .sig _ s => s.1.length + 2
  | .both a b => witSize a + witSize b
  | .left w => witSize w + 1
  | .right w => witSize w + 1
  | .among ws => witSizeList ws + 1

/-- Size cost of a list of witness fragments. -/
def witSizeList : List Wit → Nat
  | [] => 0
  | w :: ws => witSize w + witSizeList ws

end

/-- Ordered insertion for the sorting of threshold candidates. -/
def insertBy {α : Type} (le : α → α → Bool) (x : α) : List α → List α
  | [] => [x]
  | y :: ys => if le x y then x :: y :: ys else y :: insertBy le x ys

/-- Insertion sort by a boolean comparison. -/
def sortBy {α : Type} (le : α → α → Bool) (l : List α) : List α :=
  l.foldr (insertBy le) []

/-- Indices of the `k` satisfied threshold children with the smallest
witnesses, ties broken by child order (the spec's fixed tie-break rule). -/
def selectIdx (k : Nat) (opts : List (Option Wit)) : List Nat :=
  let sat := (opts.enum.filterMap fun p =>
    match p.2 with
    | some w => some (p.1, witSize w)
    | none => none)
  let le : Nat × Nat → Nat × Nat → Bool := fun a b =>
    a.2 < b.2 || (a.2 = b.2 && a.1 ≤ b.1)
  ((sortBy le sat).take k).map Prod.fst

/-- Per-child witness list for a satisfied threshold: the chosen children
keep their witness, all others are dissatisfied (`empty`). -/
def placeWits (chosen : List Nat) (opts : List (Option Wit)) : List Wit :=
  opts.enum.map fun p =>
    match p.2 with
    | some w => if chosen.contains p.1 then w else Wit.empty
    | none => Wit.empty

mutual

/-- Modelled from the spec: the finalizer's satisfaction algorithm
(`finalize_mut`, src/src/main.rs line 157; the implementation is library
code).  Walk the policy tree with the collected signatures: a key leaf is
satisfied iff a partial signature for that key is present and valid against
the digest; `and` needs both children; `or` takes the satisfiable branch,
preferring the smaller witness; a `k`-of-`n` threshold needs at least `k`
satisfiable children and selects the `k` with the smallest witnesses, ties
broken by child order.  Failure returns `none`: all-or-nothing, no partial
witness is ever produced. -/
def satisfy (m : SigMap) (msg : Digest) : Policy → Option Wit
  | .key pk =>
      match btLookup pk m with
      | none => none
      | some e => if verify_ecdsa msg e.sig pk then some (Wit.sig pk e.sig) else none
  | .and a b =>
      match satisfy m msg a, satisfy m msg b with
      | some wa, some wb => some (Wit.both wa wb)
      | _, _ => none
  | .or a b =>
      match satisfy m msg a, satisfy m msg b with
      | some wa, some wb =>
          some (if witSize wb < witSize wa then Wit.right wb else Wit.left wa)
      | some wa, none => some (Wit.left wa)
      | none, some wb => some (Wit.right wb)
      | none, none => none
  | .thresh k cs =>
      let opts := satisfyList m msg cs
      if k ≤ (opts.filterMap id).length then
        some (Wit.among (placeWits (selectIdx k opts) opts))
      else none

/-- Satisfaction of a list of policy children, in child order. -/
def satisfyList (m : SigMap) (msg : Digest) : List Policy → List (Option Wit)
  | [] => []
  | c :: cs => satisfy m msg c :: satisfyList m msg cs

end

mutual

/-- Modelled from the spec: the verification-engine semantics of the script
compiled from a policy tree, run against a witness (what "the witness
independently verifies against the original script" means: the script is
the canonical encoding of the tree, so its semantics is the tree's).  A
signature fragment must name the leaf's key and verify against the digest;
an `and` script checks both children, an `or` the taken branch, a
threshold that all supplied child witnesses check and at least `k`
children are non-empty. -/
def checkW (msg : Digest) : Policy → Wit → Bool
  | .key pk, .sig pk2 s => decide (pk2 = pk) && verify_ecdsa msg s pk
  | .and a b, .both wa wb => checkW msg a wa && checkW msg b wb
  | .or a _, .left wa => checkW msg a wa
  | .or _ b, .right wb => checkW msg b wb
  | .thresh k cs, .among ws =>
      match checkWList msg cs ws with
      | some n => decide (k ≤ n)
      | none => false
  | _, _ => false

/-- Check the per-child witnesses of a threshold, counting the satisfied
children; `none` when a supplied witness fails its child's script. -/
def checkWList (msg : Digest) : List Policy → List Wit → Option Nat
  | [], [] => some 0
  | _ :: cs, .empty :: ws => checkWList msg cs ws
  | c :: cs, w :: ws =>
      if checkW msg c w then (checkWList msg cs ws).map (fun n => n + 1) else none
  | _, _ => none

end

/-- A PSBT input (`psbt::Input`): the fields the program touches. -/
structure PsbtInput where
  partial_sigs : SigMap
  witness_utxo : Option TxOut
  witness_script : Option Bytes
  final_script_witness : Option Wit

/-- The PSBT (`PartiallySignedTransaction`): the fields the program
touches.  `unknown`, `proprietary` and `xpub` stay empty throughout. -/
structure Psbt where
  unsigned_tx : Transaction
  version : Nat
  inputs : List PsbtInput
  outputs : List Unit

/-- Serialization of a partial-signature entry for the PSBT encoding. -/
def serSigEntry (e : PubKey × EcdsaSig) : Bytes :=
  ser32 e.1 ++ serBytes e.2.sig.1 ++ ser32 e.2.sig.2 ++ ser32 e.2.hash_ty

/-- Serialization of a PSBT input's signature map. -/
def serPsbtInput (i : PsbtInput) : Bytes :=
  serList serSigEntry i.partial_sigs

/-- `consensus::serialize` of the PSBT (src/src/main.rs line 154): a pure
function of the PSBT value; the unsigned transaction and the per-input
maps are folded into the byte string, the PSBT itself is not changed. -/
def serializePsbt (p : Psbt) : Bytes :=
  serTx p.unsigned_tx ++ ser32 p.version ++ serList serPsbtInput p.inputs

/-- The signature-adding step of the program (src/src/main.rs lines
126-152) on the PSBT state: run the collection flow on input 0's
partial-signature map (indexing an empty input list is the fatal panic
case, `none`). -/
def addSignaturesPsbt (msg : Digest) (sk1 sk2 : Nat) (p : Psbt) : Option Psbt :=
  match p.inputs with
  | [] => none
  | i :: rest =>
      match collectWith sign_ecdsa msg sk1 sk2 i.partial_sigs with
      | none => none
      | some m => some (Psbt.mk p.unsigned_tx p.version
          (PsbtInput.mk m i.witness_utxo i.witness_script i.final_script_witness :: rest)
          p.outputs)

/-- Finalization of one PSBT input: run the satisfier on its collected
signatures and attach the resulting witness as `final_script_witness`. -/
def finalizeInput (tree : Policy) (msg : Digest) (i : PsbtInput) : Option PsbtInput :=
  match satisfy i.partial_sigs msg tree with
  | none => none
  | some w => some (PsbtInput.mk i.partial_sigs i.witness_utxo i.witness_script (some w))

/-- Finalization of every input, all-or-nothing. -/
def finalizeInputs (tree : Policy) (msg : Digest) : List PsbtInput → Option (List PsbtInput)
  | [] => some []
  | i :: rest =>
      match finalizeInput tree msg i, finalizeInputs tree msg rest with
      | some i2, some rest2 => some (i2 :: rest2)
      | _, _ => none

/-- Modelled from the spec: `psbt.finalize_mut` (src/src/main.rs line 157;
the implementation is library code).  Satisfy the policy for each input
from its partial signatures and attach the witness; on failure
(`UnsatisfiedError`) the PSBT is not finalized at all.  The unsigned
transaction is not touched. -/
def finalizePsbt (tree : Policy) (msg : Digest) (p : Psbt) : Option Psbt :=
  match finalizeInputs tree msg p.inputs with
  | none => none
  | some is => some (Psbt.mk p.unsigned_tx p.version is p.outputs)

/-- The transaction extracted from a finalized PSBT plus the per-input
witnesses attached at extraction (`psbt.extract_tx`, src/src/main.rs
line 160). -/
structure FinalTx where
  base : Transaction
  witnesses : List (Option Wit)

/-- `extract_tx`: the unsigned transaction with each input's final witness
attached. -/
def extract_tx (p : Psbt) : FinalTx :=
  FinalTx.mk p.unsigned_tx (p.inputs.map PsbtInput.final_script_witness)

/-- The network tag of an address (`bitcoin::Network`). -/
inductive Network where
  | bitcoin : Network
  | testnet : Network
  | signet : Network
  | regtest : Network
deriving DecidableEq, Repr

/-- An address: network tag, witness version and witness program
(`bitcoin::Address` for a segwit script). -/
structure Address where
  network : Network
  witness_version : Nat
  program : Bytes
deriving DecidableEq, Repr

mutual

/-- Modelled from the spec: the canonical byte encoding of a policy tree
(the compiled miniscript; library code).  An injective tagged encoding;
only determinism is relied on. -/
def encodePolicy : Policy → Bytes
  | .key pk => 0 :: ser32 pk
  | .and a b => 1 :: serBytes (encodePolicy a) ++ serBytes (encodePolicy b)
  | .or a b => 2 :: serBytes (encodePolicy a) ++ serBytes (encodePolicy b)
  | .thresh k cs => 3 :: ser32 k ++ encodePolicyList cs

/-- Encoding of a list of policy children. -/
def encodePolicyList : List Policy → Bytes
  | [] => []
  | c :: cs => serBytes (encodePolicy c) ++ encodePolicyList cs

end

/-- Modelled from the spec: `descriptor.script_pubkey()` (src/src/main.rs
line 46; library code) for the wsh descriptor: the segwit v0 script
`OP_0 <32-byte script hash>`, here `[0, 32]` followed by the digest of the
compiled policy. -/
def script_pubkey_of (t : Policy) : Bytes :=
  0 :: 32 :: hash32 (encodePolicy t)

/-- Modelled from the spec: `address_of(script, network)` — the
construction of a network-tagged address from a segwit script pubkey
(`Descriptor::address` / `Address::from_script`; library code).  A script
that is not a well-formed witness program is the library's error case. -/
def address_of (s : Bytes) (n : Network) : Option Address :=
  match s with
  | 0 :: 32 :: prog => if prog.length = 32 then some (Address.mk n 0 prog) else none
  | _ => none

/-- `Address::script_pubkey`: decode the address back to the script it
encodes. -/
def addrScriptPubkey (a : Address) : Bytes :=
  a.witness_version :: a.program.length :: a.program

/-- The command-line interface of the program (src/src/main.rs lines
21-35): raw funding transaction, destination address, amount, descriptor
text and the two private keys.  No network parameter is exposed. -/
structure Cli where
  rawtx : String
  address : String
  amount : Nat
  descriptor : String
  hotkey : String
  cosigner : String

/-- The address derivation of the program (src/src/main.rs line 50):
`descriptor.address(Network::Regtest)`.  `t` is the policy tree parsed
from `args.descriptor` (parsing is library code); the network argument is
the hard-coded constant `Regtest`, whatever `args` holds. -/
def mainDerivedAddress (_args : Cli) (t : Policy) : Option Address :=
  address_of (script_pubkey_of t) Network.regtest

/-- A concrete descriptor script pubkey for concrete runs. -/
def demoScript : Bytes := 0 :: 32 :: List.replicate 32 7

/-- A concrete destination script pubkey. -/
def demoReceiver : Bytes := 0 :: 32 :: List.replicate 32 9

/-- The funding output of the concrete funding transaction. -/
def demoUtxo : TxOut := TxOut.mk 100000 demoScript

/-- A concrete funding transaction with one output locked to `demoScript`. -/
def demoFunding : Transaction := Transaction.mk 2 0 [] [demoUtxo]

/-- The spend assembled from `demoFunding` for amount 1000. -/
def demoSpendTx : Transaction :=
  Transaction.mk 2 0 [TxIn.mk (OutPoint.mk (txid demoFunding) 0) [] seqMax]
    [TxOut.mk 500 demoReceiver]

/-- A concrete 2-of-2 "and" policy over the model public keys of the
secrets 3 and 4. -/
def demoPolicy : Policy := Policy.and (Policy.key 7) (Policy.key 9)

/-- A concrete PSBT as the program holds it right after the sighash for
input 0 is computed: the assembled unsigned transaction, one input with
the witness utxo and no signatures yet. -/
def demoPsbt : Psbt :=
  Psbt.mk demoSpendTx 0 [PsbtInput.mk [] (some demoUtxo) none none] [()]

/-- `demoPsbt` after the two partial signatures over digest `[1]` from the
secrets 3 and 4 are added. -/
def demoPsbt1 : Psbt :=
  Psbt.mk demoSpendTx 0
    [PsbtInput.mk
      [(7, EcdsaSig.mk (([1] : Bytes), 7) hashTyAll),
       (9, EcdsaSig.mk (([1] : Bytes), 9) hashTyAll)]
      (some demoUtxo) none none] [()]

/-- `demoPsbt1` after finalization against `demoPolicy`. -/
def demoPsbt2 : Psbt :=
  Psbt.mk demoSpendTx 0
    [PsbtInput.mk
      [(7, EcdsaSig.mk (([1] : Bytes), 7) hashTyAll),
       (9, EcdsaSig.mk (([1] : Bytes), 9) hashTyAll)]
      (some demoUtxo) none
      (some (Wit.both (Wit.sig 7 (([1] : Bytes), 7)) (Wit.sig 9 (([1] : Bytes), 9))))] [()]

/-- A concrete command line (the string fields play no role in any claim). -/
def demoCli : Cli := Cli.mk "" "" 99500 "" "" ""

/-- A second, different concrete command line. -/
def demoCli2 : Cli := Cli.mk "" "" 1 "" "" ""

/-- The address derived for `demoPolicy` on regtest. -/
def demoAddr : Address :=
  Address.mk Network.regtest 0 (hash32 (encodePolicy demoPolicy))

/-! Helper lemmas shared by the claim theorems. -/

theorem get_vout_from_some (id spk : Bytes) :
    ∀ (outs : List TxOut) (i : Nat) (op : OutPoint) (o : TxOut),
      get_vout_from id spk outs i = some (op, o) →
      op.txid = id ∧ i ≤ op.vout ∧ outs.get? (op.vout - i) = some o ∧
        o.script_pubkey = spk ∧
        ∀ j, j < op.vout - i → ∀ o2, outs.get? j = some o2 → o2.script_pubkey ≠ spk
  | [], _, _, _, h => by simp [get_vout_from] at h
  | o1 :: rest, i, op, o, h => by
      rw [get_vout_from] at h
      by_cases hm : spk = o1.script_pubkey
      · rw [if_pos hm] at h
        obtain ⟨h1, h2⟩ := Prod.mk.injEq .. ▸ Option.some.inj h
        subst h2
        refine ⟨by rw [← h1], by rw [← h1], ?_, hm.symm, ?_⟩
        · rw [← h1]
          simp
        · intro j hj
          rw [← h1] at hj
          simp at hj
      · rw [if_neg hm] at h
        obtain ⟨ht, hle, hget, hspk, hfirst⟩ := get_vout_from_some id spk rest (i + 1) op o h
        have hlt : i < op.vout := Nat.lt_of_succ_le hle
        have hsub : op.vout - i = (op.vout - (i + 1)) + 1 := by omega
        refine ⟨ht, Nat.le_of_lt hlt, ?_, hspk, ?_⟩
        · rw [hsub]
          simpa using hget
        · intro j hj o2 ho2
          match j, hj, ho2 with
          | 0, _, h0 =>
              have he : o2 = o1 := by
                have h1 := h0
                simp at h1
                exact h1.symm
              subst he
              exact fun hc => hm hc.symm
          | j + 1, hj, hj2 =>
              exact hfirst j (by omega) o2 (by simpa using hj2)

theorem get_vout_from_none (id spk : Bytes) :
    ∀ (outs : List TxOut) (i : Nat),
      get_vout_from id spk outs i = none ↔ ∀ o ∈ outs, o.script_pubkey ≠ spk
  | [], _ => by simp [get_vout_from]
  | o1 :: rest, i => by
      rw [get_vout_from]
      by_cases hm : spk = o1.script_pubkey
      · rw [if_pos hm]
        simp [hm.symm]
      · rw [if_neg hm]
        rw [get_vout_from_none id spk rest (i + 1)]
        constructor
        · intro h o ho
          rcases List.mem_cons.mp ho with ho1 | ho2
          · subst ho1
            exact fun hc => hm hc.symm
          · exact h o ho2
        · intro h o ho
          exact h o (List.mem_cons_of_mem _ ho)

theorem btLookup_btInsert (k k2 : PubKey) (v : EcdsaSig) :
    ∀ m : SigMap, btLookup k (btInsert k2 v m) =
      if k = k2 then some v else btLookup k m
  | [] => by
      by_cases h : k = k2 <;> simp [btInsert, btLookup, h]
  | (k3, v3) :: rest => by
      by_cases h23 : k2 = k3
      · subst h23
        by_cases h : k = k2 <;> simp [btInsert, btLookup, h]
      · by_cases hlt : k2 < k3
        · by_cases h : k = k2 <;> simp [btInsert, btLookup, h23, hlt, h]
        · by_cases h3 : k = k3
          · subst h3
            have hk2 : ¬k = k2 := fun hc => h23 hc.symm
            simp [btInsert, btLookup, h23, hlt, hk2]
          · simp [btInsert, btLookup, h23, hlt, h3, btLookup_btInsert k k2 v rest]

theorem satisfyList_eq_map (m : SigMap) (msg : Digest) :
    ∀ cs : List Policy, satisfyList m msg cs = cs.map (satisfy m msg)
  | [] => rfl
  | c :: cs => by
      show satisfy m msg c :: satisfyList m msg cs = _
      rw [satisfyList_eq_map m msg cs]
      rfl

theorem hash32_length (bs : Bytes) : (hash32 bs).length = 32 := by
  simp [hash32]

theorem address_of_network (s : Bytes) (n : Network) (a : Address)
    (h : address_of s n = some a) : a.network = n := by
  unfold address_of at h
  split at h
  · split at h
    · cases h
      rfl
    · cases h
  · cases h

/-! The claim theorems. -/

/-- C1: the claim requires assembly to fail with `InsufficientAmountError`
whenever amount ≤ fee and never to subtract the fee unconditionally.  The
code subtracts the fixed fee of 500 unconditionally (src/src/main.rs line
103): evaluated at the claim's own boundary input amount = 500 = fee, with
a funding transaction holding a matching output, assembly succeeds and
emits a zero-value output instead of failing. -/
theorem amount_eq_fee_gives_zero_value_output :
    (assembleSpend demoFunding demoReceiver 500 demoScript).map
        (fun r => r.1.output.map TxOut.value) = some [0] ∧
    (assembleSpend demoFunding demoReceiver 500 demoScript).isSome = true := by
  constructor <;> rfl

/-- C2: `get_vout` scans the funding transaction's output list in index
order and returns the outpoint (the funding transaction's id plus the
output index) and the output of the first output whose script equals the
target script byte-for-byte; when no output matches it returns the fatal
not-found error (the `panic!`, modelled as `none`). -/
theorem locate_scans_in_index_order (tx : Transaction) (spk : Bytes) :
    (∀ op o, get_vout tx spk = some (op, o) →
       op.txid = txid tx ∧ tx.output.get? op.vout = some o ∧
         o.script_pubkey = spk ∧
         ∀ j, j < op.vout → ∀ o2, tx.output.get? j = some o2 →
           o2.script_pubkey ≠ spk) ∧
    (get_vout tx spk = none ↔ ∀ o ∈ tx.output, o.script_pubkey ≠ spk) := by
  constructor
  · intro op o h
    obtain ⟨ht, _, hget, hspk, hfirst⟩ :=
      get_vout_from_some (txid tx) spk tx.output 0 op o h
    refine ⟨ht, by simpa using hget, hspk, ?_⟩
    intro j hj o2 h2
    exact hfirst j (by omega) o2 h2
  · exact get_vout_from_none (txid tx) spk tx.output 0

/-- Witness for C2: on the concrete funding transaction the located output
is at index 0, carries the funding value and matches the target script. -/
theorem locate_scans_in_index_order_witness :
    (OutPoint.mk (txid demoFunding) 0).txid = txid demoFunding ∧
    demoFunding.output.get? 0 = some demoUtxo ∧
    demoUtxo.script_pubkey = demoScript := by
  have h := (locate_scans_in_index_order demoFunding demoScript).1
    (OutPoint.mk (txid demoFunding) 0) demoUtxo rfl
  exact ⟨h.1, h.2.1, h.2.2.1⟩

/-- C3: every successfully assembled spend has lock time zero, exactly one
input — the outpoint located by `get_vout`, with the maximal sequence
number — and exactly one output paying the destination script the amount
minus the fee. -/
theorem assembled_spend_shape (depo : Transaction) (rspk : Bytes)
    (amount : Nat) (dspk : Bytes) (tx : Transaction) (utxo : TxOut)
    (h : assembleSpend depo rspk amount dspk = some (tx, utxo)) :
    tx.lock_time = 0 ∧
    (∃ op, get_vout depo dspk = some (op, utxo) ∧
      tx.input = [TxIn.mk op [] seqMax]) ∧
    tx.output = [TxOut.mk (amount - fee) rspk] := by
  unfold assembleSpend at h
  split at h
  next => cases h
  next op utxo2 heq =>
    split at h
    next => cases h
    next hf =>
      obtain ⟨h1, h2⟩ := Prod.mk.injEq .. ▸ Option.some.inj h
      subst h2
      exact ⟨by rw [← h1], ⟨op, heq, by rw [← h1]⟩, by rw [← h1]⟩

/-- Witness for C3: the spend assembled from the concrete funding
transaction for amount 1000 has lock time zero and the single 500-sat
output. -/
theorem assembled_spend_shape_witness :
    demoSpendTx.lock_time = 0 ∧
    demoSpendTx.output = [TxOut.mk (1000 - fee) demoReceiver] := by
  have h := assembled_spend_shape demoFunding demoReceiver 1000 demoScript
    demoSpendTx demoUtxo rfl
  exact ⟨h.1, h.2.2⟩

/-- C4: the sighash computation is a pure, deterministic function of the
transaction, the input index, the spent script, the spent value and the
sighash type: two computations over argument tuples that agree component
by component yield byte-identical digests; no other input — in particular
no internal state surviving between calls — enters the result. -/
theorem sighash_deterministic (tx1 tx2 : Transaction) (idx1 idx2 : Nat)
    (sc1 sc2 : Bytes) (v1 v2 : Nat) (ty1 ty2 : Nat)
    (htx : tx1 = tx2) (hidx : idx1 = idx2) (hsc : sc1 = sc2)
    (hv : v1 = v2) (hty : ty1 = ty2) :
    sighash_msg tx1 idx1 sc1 v1 ty1 = sighash_msg tx2 idx2 sc2 v2 ty2 := by
  subst htx hidx hsc hv hty
  rfl

/-- Witness for C4: two computations of the concrete spend's input-0
sighash agree. -/
theorem sighash_deterministic_witness :
    sighash_msg demoSpendTx 0 demoScript 100000 hashTyAll =
      sighash_msg demoSpendTx 0 demoScript 100000 hashTyAll :=
  sighash_deterministic demoSpendTx demoSpendTx 0 0 demoScript demoScript
    100000 100000 hashTyAll hashTyAll rfl rfl rfl rfl rfl

/-- C5: whatever the library signer returns, every signature recorded in
the partial-signature map produced by the collection flow self-verifies
against its public key and the digest; a signature that fails
self-verification (either the first or the second) aborts the run with
nothing recorded; and the modelled signer always passes, so the program's
own flow never aborts there. -/
theorem signatures_self_verified (sgn : Digest → Nat → Sig) (msg : Digest)
    (sk1 sk2 : Nat) :
    (∀ m, collectWith sgn msg sk1 sk2 [] = some m →
       ∀ pk e, btLookup pk m = some e → verify_ecdsa msg e.sig pk = true) ∧
    (verify_ecdsa msg (sgn msg sk1) (publicKey sk1) = false →
      collectWith sgn msg sk1 sk2 [] = none) ∧
    (verify_ecdsa msg (sgn msg sk2) (publicKey sk2) = false →
      collectWith sgn msg sk1 sk2 [] = none) ∧
    verify_ecdsa msg (sign_ecdsa msg sk1) (publicKey sk1) = true := by
  refine ⟨?_, ?_, ?_, ?_⟩
  · intro m hm pk e he
    unfold collectWith at hm
    by_cases h1 : verify_ecdsa msg (sgn msg sk1) (publicKey sk1)
    · by_cases h2 : verify_ecdsa msg (sgn msg sk2) (publicKey sk2)
      · simp only [h1, h2, if_true] at hm
        cases hm
        rw [btLookup_btInsert] at he
        by_cases e2 : pk = publicKey sk2
        · rw [if_pos e2] at he
          cases he
          rw [e2]
          exact h2
        · rw [if_neg e2, btLookup_btInsert] at he
          by_cases e1 : pk = publicKey sk1
          · rw [if_pos e1] at he
            cases he
            rw [e1]
            exact h1
          · rw [if_neg e1] at he
            cases he
      · simp [h1, h2] at hm
    · simp [h1] at hm
  · intro h1
    unfold collectWith
    simp [h1]
  · intro h2
    unfold collectWith
    by_cases h1 : verify_ecdsa msg (sgn msg sk1) (publicKey sk1) <;> simp [h1, h2]
  · simp [verify_ecdsa, sign_ecdsa]

/-- Witness for C5: in the concrete run over digest `[1, 2]` with secrets
3 and 4, the recorded second signature self-verifies against the second
public key. -/
theorem signatures_self_verified_witness :
    verify_ecdsa [1, 2] (sign_ecdsa [1, 2] 4) (publicKey 4) = true := by
  have h := (signatures_self_verified sign_ecdsa [1, 2] 3 4).1
    [(7, EcdsaSig.mk (([1, 2] : Bytes), 7) hashTyAll),
     (9, EcdsaSig.mk (([1, 2] : Bytes), 9) hashTyAll)]
    rfl (publicKey 4) (EcdsaSig.mk (([1, 2] : Bytes), 9) hashTyAll) rfl
  exact h

/-- C9: when the two supplied private keys derive the same public key, the
partial-signature map produced by the program holds exactly one entry for
that key, the second insertion having overwritten the first. -/
theorem same_pubkey_overwrites (msg : Digest) (sk1 sk2 : Nat) (m : SigMap)
    (hpk : publicKey sk1 = publicKey sk2)
    (h : collectSignatures msg sk1 sk2 = some m) :
    m.length = 1 ∧
    m = [(publicKey sk2, EcdsaSig.mk (sign_ecdsa msg sk2) hashTyAll)] := by
  unfold collectSignatures collectWith at h
  simp only [verify_ecdsa, sign_ecdsa, decide_eq_true_eq, if_pos rfl] at h
  rw [hpk] at h
  simp [btInsert] at h
  subst h
  exact ⟨rfl, rfl⟩

/-- Witness for C9: the same secret supplied twice leaves one entry. -/
theorem same_pubkey_overwrites_witness :
    ([(publicKey 5, EcdsaSig.mk (sign_ecdsa [1] 5) hashTyAll)] : SigMap).length = 1 := by
  have h := same_pubkey_overwrites [1] 5 5
    [(publicKey 5, EcdsaSig.mk (sign_ecdsa [1] 5) hashTyAll)] rfl rfl
  exact h.1

theorem satisfy_key_eq (m : SigMap) (msg : Digest) (pk : PubKey) :
    satisfy m msg (Policy.key pk) =
      match btLookup pk m with
      | none => none
      | some e =>
          if verify_ecdsa msg e.sig pk then some (Wit.sig pk e.sig) else none := rfl

theorem satisfy_and_eq (m : SigMap) (msg : Digest) (a b : Policy) :
    satisfy m msg (Policy.and a b) =
      match satisfy m msg a, satisfy m msg b with
      | some wa, some wb => some (Wit.both wa wb)
      | _, _ => none := rfl

/-- C6: for the 2-of-2 "and" policy, satisfaction succeeds when valid
partial signatures for both keys are present and the produced witness
verifies against the script compiled from the policy; with either of the
two signatures missing it fails with the unsatisfied error (`none`) and
nothing partial is produced; and in general a `k`-of-`n` threshold node
with fewer than `k` satisfiable children fails. -/
theorem finalize_two_of_two (m : SigMap) (msg : Digest) (pk1 pk2 : PubKey)
    (s1 s2 : Sig) (t1 t2 : Nat) :
    (btLookup pk1 m = some (EcdsaSig.mk s1 t1) →
     verify_ecdsa msg s1 pk1 = true →
     btLookup pk2 m = some (EcdsaSig.mk s2 t2) →
     verify_ecdsa msg s2 pk2 = true →
     satisfy m msg (Policy.and (Policy.key pk1) (Policy.key pk2)) =
       some (Wit.both (Wit.sig pk1 s1) (Wit.sig pk2 s2)) ∧
     checkW msg (Policy.and (Policy.key pk1) (Policy.key pk2))
       (Wit.both (Wit.sig pk1 s1) (Wit.sig pk2 s2)) = true) ∧
    (btLookup pk1 m = none →
      satisfy m msg (Policy.and (Policy.key pk1) (Policy.key pk2)) = none) ∧
    (btLookup pk2 m = none →
      satisfy m msg (Policy.and (Policy.key pk1) (Policy.key pk2)) = none) ∧
    (∀ k cs, ((cs.map (satisfy m msg)).filterMap id).length < k →
      satisfy m msg (Policy.thresh k cs) = none) := by
  refine ⟨?_, ?_, ?_, ?_⟩
  · intro h1 hv1 h2 hv2
    constructor
    · rw [satisfy_and_eq, satisfy_key_eq, satisfy_key_eq, h1, h2]
      simp [hv1, hv2]
    · show (checkW msg (Policy.key pk1) (Wit.sig pk1 s1) &&
        checkW msg (Policy.key pk2) (Wit.sig pk2 s2)) = true
      show ((decide (pk1 = pk1) && verify_ecdsa msg s1 pk1) &&
        (decide (pk2 = pk2) && verify_ecdsa msg s2 pk2)) = true
      simp [hv1, hv2]
  · intro h1
    rw [satisfy_and_eq, satisfy_key_eq, h1]
  · intro h2
    have hk2 : satisfy m msg (Policy.key pk2) = none := by rw [satisfy_key_eq, h2]
    rw [satisfy_and_eq, hk2]
    cases satisfy m msg (Policy.key pk1) <;> rfl
  · intro k cs h
    have h2 : ((satisfyList m msg cs).filterMap id).length < k := by
      rw [satisfyList_eq_map]
      exact h
    show (if k ≤ ((satisfyList m msg cs).filterMap id).length then _ else none) = none
    rw [if_neg (Nat.not_le.mpr h2)]

/-- Witness for C6: the concrete 2-of-2 policy over keys 7 and 9 with both
signatures over digest `[1]` satisfies, and the witness checks against the
policy's script. -/
theorem finalize_two_of_two_witness :
    satisfy [(7, EcdsaSig.mk (([1] : Bytes), 7) hashTyAll),
             (9, EcdsaSig.mk (([1] : Bytes), 9) hashTyAll)] [1]
        (Policy.and (Policy.key 7) (Policy.key 9)) =
      some (Wit.both (Wit.sig 7 (([1] : Bytes), 7)) (Wit.sig 9 (([1] : Bytes), 9))) ∧
    checkW [1] (Policy.and (Policy.key 7) (Policy.key 9))
      (Wit.both (Wit.sig 7 (([1] : Bytes), 7)) (Wit.sig 9 (([1] : Bytes), 9))) = true := by
  exact (finalize_two_of_two
    [(7, EcdsaSig.mk (([1] : Bytes), 7) hashTyAll),
     (9, EcdsaSig.mk (([1] : Bytes), 9) hashTyAll)]
    [1] 7 9 (([1] : Bytes), 7) (([1] : Bytes), 9) hashTyAll hashTyAll).1
    rfl rfl rfl rfl

/-- C7: once the sighash for input 0 is computed, neither adding the two
partial signatures nor finalizing changes the unsigned transaction; the
witness is attached beside it and only joins the transaction at
extraction, whose base is still the original unsigned transaction
(serializing, `serializePsbt`, is a pure function of the PSBT and touches
nothing). -/
theorem unsigned_tx_unchanged (p : Psbt) (msg : Digest) (sk1 sk2 : Nat)
    (tree : Policy) (p1 : Psbt)
    (h : addSignaturesPsbt msg sk1 sk2 p = some p1) :
    p1.unsigned_tx = p.unsigned_tx ∧
    ∀ p2, finalizePsbt tree msg p1 = some p2 →
      p2.unsigned_tx = p.unsigned_tx ∧ (extract_tx p2).base = p.unsigned_tx := by
  have h1 : p1.unsigned_tx = p.unsigned_tx := by
    unfold addSignaturesPsbt at h
    split at h
    · cases h
    · split at h
      · cases h
      · cases h
        rfl
  refine ⟨h1, ?_⟩
  intro p2 h2
  unfold finalizePsbt at h2
  split at h2
  · cases h2
  · cases h2
    exact ⟨h1, h1⟩

/-- Witness for C7: in the concrete run, the PSBT after signing and the
PSBT after finalization still carry the original unsigned transaction,
which is also the base of the extracted transaction. -/
theorem unsigned_tx_unchanged_witness :
    demoPsbt1.unsigned_tx = demoPsbt.unsigned_tx ∧
    demoPsbt2.unsigned_tx = demoPsbt.unsigned_tx ∧
    (extract_tx demoPsbt2).base = demoPsbt.unsigned_tx := by
  have h := unsigned_tx_unchanged demoPsbt [1] 3 4 demoPolicy demoPsbt1 rfl
  have h2 := h.2 demoPsbt2 rfl
  exact ⟨h.1, h2.1, h2.2⟩

/-- C8: for every policy tree and network, the address derived from the
tree's script decodes back to a script equal to the tree's script:
`address_of(script_of(tree), network)` succeeds and its
`script_pubkey` is `script_of(tree)` again. -/
theorem address_round_trip (t : Policy) (n : Network) :
    ∃ a, address_of (script_pubkey_of t) n = some a ∧
      addrScriptPubkey a = script_pubkey_of t := by
  refine ⟨Address.mk n 0 (hash32 (encodePolicy t)), ?_, ?_⟩
  · show address_of (0 :: 32 :: hash32 (encodePolicy t)) n = _
    simp [address_of, hash32_length]
  · show 0 :: (hash32 (encodePolicy t)).length :: hash32 (encodePolicy t) = _
    rw [hash32_length]
    rfl

/-- C10: the address the program derives for the descriptor is computed
for the Regtest network whatever the command-line arguments hold — the
CLI exposes no network parameter, and the derivation of two arbitrary
invocations agrees — and every derived address is tagged Regtest. -/
theorem derived_address_regtest (args args2 : Cli) (t : Policy) :
    mainDerivedAddress args t = mainDerivedAddress args2 t ∧
    ∀ a, mainDerivedAddress args t = some a → a.network = Network.regtest := by
  refine ⟨rfl, ?_⟩
  intro a h
  exact address_of_network _ _ _ h

/-- Witness for C10: the address derived for the concrete policy on the
concrete command line is tagged Regtest. -/
theorem derived_address_regtest_witness :
    demoAddr.network = Network.regtest :=
  (derived_address_regtest demoCli demoCli2 demoPolicy).2 demoAddr rfl

end MiniPsbt
